import Mathlib

/-!
Verification of the redis-server implementation (`src/`): a shallow
embedding in Lean 4 of the data model and the command handlers of
`database.rs`, `commands.rs`, `network.rs` and `parsing.rs`, together
with theorems settling the specification claims.

Conventions of the embedding:
* Rust `u64`/`usize` values are `Nat`; where the source can wrap
  (release-mode overflow) an explicit `% 2^64` is written.
* A Rust panic (`unwrap` on `None`, out-of-bounds index, `BTreeMap::range`
  with a reversed range) is modelled by an `Option` result of `none`.
* Byte buffers are lists of characters; for the ASCII protocol bytes
  handled by the scanner the byte positions and character positions
  coincide, and `String.utf8ByteSize` is used wherever the source takes
  `str::len()` (a byte count).
* Wall-clock readings (`SystemTime::now`, `Instant::now`) are passed in
  as explicit `Nat` parameters (milliseconds).
-/

/-- The set of u64 values: `2 ^ 64`. -/
def u64Bound : Nat := 18446744073709551616

/-- Numeric value of a list of decimal digit characters (most significant first). -/
def decDigitsVal (cs : List Char) : Nat :=
  cs.foldl (fun a c => a * 10 + (c.toNat - 48)) 0

/-- Model of Rust `str::parse::<u64>()` (also `usize` on a 64-bit target):
an optional leading `+`, then one or more decimal digits, and the value
must fit in 64 bits. -/
def rustParseU64 (s : String) : Option Nat :=
  let cs := match s.data with
    | '+' :: rest => rest
    | cs => cs
  if cs ≠ [] ∧ cs.all Char.isDigit then
    if decDigitsVal cs < u64Bound then some (decDigitsVal cs) else none
  else none

/-- Model of Rust `str::parse::<usize>()`; identical to `u64` on the
64-bit targets this server runs on. -/
def rustParseUsize (s : String) : Option Nat := rustParseU64 s

/-- `StreamID` of `database.rs`: a pair of u64 components. -/
structure StreamID where
  milliseconds_time : Nat
  sequence_number : Nat
deriving DecidableEq, Repr

/-- `StreamID::zero` of `database.rs`. -/
def StreamID.zero : StreamID := ⟨0, 0⟩

/-- `StreamID::is_valid` of `database.rs`: `self` is strictly greater than
`last` in the lexicographic (ms, seq) order. -/
def StreamID.is_valid (self last : StreamID) : Bool :=
  if last.milliseconds_time < self.milliseconds_time then true
  else if self.milliseconds_time = last.milliseconds_time then
    decide (last.sequence_number < self.sequence_number)
  else false

/-- The strict lexicographic order on stream identifiers (the order of
`impl Ord for StreamID` in `database.rs`). -/
def StreamID.lt (a b : StreamID) : Prop :=
  a.milliseconds_time < b.milliseconds_time ∨
    (a.milliseconds_time = b.milliseconds_time ∧
      a.sequence_number < b.sequence_number)

/-- Non-strict companion of `StreamID.lt`. -/
def StreamID.le (a b : StreamID) : Prop := StreamID.lt a b ∨ a = b

theorem StreamID.is_valid_iff_lt (self last : StreamID) :
    StreamID.is_valid self last = true ↔ StreamID.lt last self := by
  unfold StreamID.is_valid StreamID.lt
  split
  · simp; omega
  · split
    · simp; omega
    · simp; omega

theorem StreamID.lt_irrefl (a : StreamID) : ¬ StreamID.lt a a := by
  unfold StreamID.lt; omega

theorem StreamID.lt_trans {a b c : StreamID} :
    StreamID.lt a b → StreamID.lt b c → StreamID.lt a c := by
  unfold StreamID.lt; omega

theorem StreamID.le_of_not_valid {a b : StreamID}
    (h : StreamID.is_valid a b = false) : StreamID.le a b := by
  rcases a with ⟨ams, aseq⟩
  rcases b with ⟨bms, bseq⟩
  unfold StreamID.is_valid at h
  unfold StreamID.le StreamID.lt
  simp only [StreamID.mk.injEq]
  dsimp only at h ⊢
  split at h
  · exact absurd h (by simp)
  · split at h
    · simp at h; omega
    · omega

theorem StreamID.lt_of_le_of_lt {a b c : StreamID} :
    StreamID.le a b → StreamID.lt b c → StreamID.lt a c := by
  intro hab hbc
  rcases hab with h | h
  · exact StreamID.lt_trans h hbc
  · rw [h]; exact hbc

/-- Rust `str::split(sep)`: the list of separated parts (an empty input
gives one empty part, as in Rust). -/
def rustSplitChar (sep : Char) : List Char → List (List Char)
  | [] => [[]]
  | c :: rest =>
    if c = sep then [] :: rustSplitChar sep rest
    else
      match rustSplitChar sep rest with
      | part :: parts => (c :: part) :: parts
      | [] => [[c]]

/-- `StreamID::from_str` of `database.rs`: split on `-` into exactly two
parts, each parsed as a u64. -/
def StreamID.from_str (id_str : String) : Option StreamID :=
  match rustSplitChar '-' id_str.data with
  | [p1, p2] =>
    match rustParseU64 (String.mk p1), rustParseU64 (String.mk p2) with
    | some ms, some seq => some ⟨ms, seq⟩
    | _, _ => none
  | _ => none

/-- `impl Display for StreamID`: the `ms-seq` rendering. -/
def StreamID.toStr (id : StreamID) : String :=
  toString id.milliseconds_time ++ "-" ++ toString id.sequence_number

/-- One stream entry: the field-name → field-value map (`HashMap<String, String>`). -/
abbrev Entry := List (String × String)

/-- A stream: the in-order contents of the
`BTreeMap<StreamID, HashMap<String, String>>` of `database.rs`. -/
abbrev RStream := List (StreamID × Entry)

/-- `HashMap::insert` on an entry: replace the binding if the field is
already present, otherwise append it. -/
def entryInsert (e : Entry) (k v : String) : Entry :=
  match e with
  | [] => [(k, v)]
  | (k', v') :: rest =>
    if k' = k then (k, v) :: rest else (k', v') :: entryInsert rest k v

/-- `BTreeMap::insert` on a stream held as a sorted association list. -/
def streamInsert (id : StreamID) (e : Entry) : RStream → RStream
  | [] => [(id, e)]
  | (k, v) :: rest =>
    if StreamID.is_valid k id then (id, e) :: (k, v) :: rest
    else if k = id then (id, e) :: rest
    else (k, v) :: streamInsert id e rest

/-- The fold step of `Iterator::max` on stream identifiers: keep the
larger of the running maximum and the next key. -/
def maxStep (acc : Option StreamID) (k : StreamID) : Option StreamID :=
  match acc with
  | none => some k
  | some m => some (if StreamID.is_valid k m then k else m)

/-- `stream.keys().max()` of `handle_xadd`. -/
def keysMax? (s : RStream) : Option StreamID :=
  (s.map Prod.fst).foldl maxStep none

/-- `stream.iter().rev().find(|(id, _)| id.milliseconds_time == ms)` of
`StreamID::generate` / `generate_with_time`: the sequence number of the
last entry at the given millisecond timestamp. -/
def lastSeqAt (ms : Nat) (s : RStream) : Option Nat :=
  (s.reverse.find? (fun p => p.1.milliseconds_time == ms)).map
    (fun p => p.1.sequence_number)

/-- `StreamID::generate` of `database.rs`, with the wall clock passed in;
`+ 1` wraps at 64 bits as the release-built source does. -/
def StreamID.generate (current_time : Nat) (s : RStream) : StreamID :=
  ⟨current_time,
    match lastSeqAt current_time s with
    | some seq => (seq + 1) % u64Bound
    | none => 0⟩

/-- `StreamID::generate_with_time` of `database.rs`: for ms 0 the first
sequence number is 1, since (0,0) is not allowed. -/
def StreamID.generate_with_time (milliseconds_time : Nat) (s : RStream) : StreamID :=
  ⟨milliseconds_time,
    if milliseconds_time = 0 then
      match lastSeqAt 0 s with
      | some seq => (seq + 1) % u64Bound
      | none => 1
    else
      match lastSeqAt milliseconds_time s with
      | some seq => (seq + 1) % u64Bound
      | none => 0⟩

/-- `TtlState` of `database.rs`: a pending duration or the
already-expired sentinel. -/
inductive TtlState
  | Waiting (ttl : Nat)
  | Expired
deriving DecidableEq, Repr

/-- `RedisValueType` of `database.rs`. -/
inductive RedisValueType
  | IntegerValue (n : Nat)
  | StringValue (s : String)
  | StreamValue (m : RStream)
deriving DecidableEq, Repr

/-- `impl From<String> for RedisValueType`: a string that parses as a u64
becomes an `IntegerValue`; anything else stays a `StringValue`. -/
def RedisValueType.fromString (s : String) : RedisValueType :=
  match rustParseU64 s with
  | some n => .IntegerValue n
  | none => .StringValue s

/-- `RedisValueType::len` of `database.rs` (byte lengths, as `str::len`). -/
def RedisValueType.len : RedisValueType → Nat
  | .IntegerValue n => (toString n).length
  | .StringValue s => s.utf8ByteSize
  | .StreamValue m => m.length

/-- The entry lines of the stream case of `impl Display for RedisValueType`. -/
def streamDisplayBody : RStream → String
  | [] => ""
  | (key, inner) :: rest =>
    "  " ++ StreamID.toStr key ++ ": \x7b\n" ++
      String.join (inner.map (fun p => "    " ++ p.1 ++ ": " ++ p.2 ++ ",\n")) ++
      "  \x7d,\n" ++ streamDisplayBody rest

/-- `impl Display for RedisValueType` of `database.rs`. -/
def RedisValueType.display : RedisValueType → String
  | .IntegerValue n => toString n
  | .StringValue s => s
  | .StreamValue m => "\x7b\n" ++ streamDisplayBody m ++ "\x7d"

/-- `RedisValue` of `database.rs`; `creation_time` is the `Instant::now()`
reading at construction, in milliseconds. -/
structure RedisValue where
  value : RedisValueType
  creation_time : Nat
  ttl_state : Option TtlState
deriving DecidableEq, Repr

/-- `RedisValue::new` of `database.rs`: a `ttl` of 0 is the `Expired`
sentinel, any other `ttl` waits that many milliseconds. -/
def RedisValue.new (value : RedisValueType) (now : Nat) (ttl_millis : Option Nat) : RedisValue :=
  { value := value
    creation_time := now
    ttl_state := ttl_millis.map (fun ttl => if ttl = 0 then .Expired else .Waiting ttl) }

/-- `RedisValue::is_expired` of `database.rs`, evaluated at wall-clock
`now`: elapsed time since creation has reached the ttl. -/
def RedisValue.is_expired (rv : RedisValue) (now : Nat) : Bool :=
  match rv.ttl_state with
  | some (.Waiting ttl) => decide (ttl ≤ now - rv.creation_time)
  | some .Expired => true
  | none => false

/-- The `data: HashMap<String, RedisValue>` keyspace of `RedisDatabase`,
as an association list with at most one binding per key. -/
abbrev Db := List (String × RedisValue)

/-- `RedisDatabase::insert` (`HashMap::insert`): replace the binding if
present, otherwise add it. -/
def dbInsert (db : Db) (key : String) (v : RedisValue) : Db :=
  match db with
  | [] => [(key, v)]
  | (k, v') :: rest =>
    if k = key then (key, v) :: rest else (k, v') :: dbInsert rest key v

/-- `RedisDatabase::get`. -/
def dbGet (db : Db) (key : String) : Option RedisValue :=
  match db with
  | [] => none
  | (k, v) :: rest => if k = key then some v else dbGet rest key

/-- `RedisDatabase::remove` (`HashMap::remove`): a `HashMap` holds at
most one binding per key, so removal clears every binding of the key. -/
def dbRemove (db : Db) (key : String) : Db :=
  match db with
  | [] => []
  | (k, v) :: rest => if k = key then dbRemove rest key else (k, v) :: dbRemove rest key

/-- The stream stored under `key`, when `key` holds a stream. -/
def dbStreamAt (db : Db) (key : String) : Option RStream :=
  match dbGet db key with
  | some rv =>
    match rv.value with
    | .StreamValue s => some s
    | _ => none
  | none => none

theorem dbGet_dbInsert_self (db : Db) (key : String) (v : RedisValue) :
    dbGet (dbInsert db key v) key = some v := by
  induction db with
  | nil => simp [dbInsert, dbGet]
  | cons p rest ih =>
    rcases p with ⟨k, v'⟩
    by_cases h : k = key <;> simp [dbInsert, dbGet, h, ih]

/-- Rust `String::from("PX").to_uppercase()`-style ASCII upper casing; the
verbs and option names this server compares are ASCII, where Rust's
Unicode `to_uppercase` agrees with per-character upper casing. -/
def rustUpper (s : String) : String := String.mk (s.data.map Char.toUpper)

/-- `handle_set` of `commands.rs`.  Returns `none` when the source
panics: `args[3].parse::<u64>().unwrap()` on a non-numeric PX operand.
Otherwise returns the reply and the updated keyspace. -/
def handle_set (now : Nat) (db : Db) (args : List String) : Option (String × Db) :=
  if h2 : args.length = 2 then
    some ("+OK\r\n", dbInsert db (args.get ⟨0, by omega⟩)
      (RedisValue.new (RedisValueType.fromString (args.get ⟨1, by omega⟩)) now none))
  else if h4 : args.length = 4 then
    if rustUpper (args.get ⟨2, by omega⟩) = "PX" then
      match rustParseU64 (args.get ⟨3, by omega⟩) with
      | none => none
      | some ttl =>
        some ("+OK\r\n", dbInsert db (args.get ⟨0, by omega⟩)
          (RedisValue.new (RedisValueType.fromString (args.get ⟨1, by omega⟩)) now (some ttl)))
    else some ("-ERR wrong number of arguments for 'set' command\r\n", db)
  else some ("-ERR wrong number of arguments for 'set' command\r\n", db)

/-- `handle_get` of `commands.rs`.  Returns `none` when the source
panics: `args[0]` on an empty argument vector.  An expired record is
removed before the null-bulk reply. -/
def handle_get (now : Nat) (db : Db) (args : List String) : Option (String × Db) :=
  match args with
  | [] => none
  | key :: _ =>
    match dbGet db key with
    | some rv =>
      if rv.is_expired now then some ("$-1\r\n", dbRemove db key)
      else some ("$" ++ toString rv.value.len ++ "\r\n" ++ rv.value.display ++ "\r\n", db)
    | none => some ("$-1\r\n", db)

/-- `handle_type` of `commands.rs`.  Returns `none` when the source
panics (`args[0]` on an empty argument vector) and for an
`IntegerValue`, which the source's two-armed match does not cover.  Note
that, unlike `handle_get`, no expiry check is made. -/
def handle_type (db : Db) (args : List String) : Option String :=
  match args with
  | [] => none
  | key :: _ =>
    match dbGet db key with
    | some rv =>
      match rv.value with
      | .StringValue _ => some "+string\r\n"
      | .StreamValue _ => some "+stream\r\n"
      | .IntegerValue _ => none
    | none => some "+none\r\n"

/-- Rust `str::trim_end_matches(pat)`: repeatedly strip the suffix. -/
def trimEndList (suf : List Char) (cs : List Char) : List Char :=
  if h : suf ≠ [] ∧ suf.isSuffixOf cs = true then
    trimEndList suf (cs.take (cs.length - suf.length))
  else cs
termination_by cs.length
decreasing_by
  have h2 := h.2
  rw [List.isSuffixOf] at h2
  have hle := List.IsPrefix.length_le (List.isPrefixOf_iff_prefix.mp h2)
  simp only [List.length_reverse] at hle
  have hpos : 0 < suf.length := List.length_pos.mpr h.1
  simp only [List.length_take]
  omega

/-- The error replies of `handle_xadd` in `commands.rs`. -/
def xaddWrongType : String := "-ERR wrong type for 'xadd' command\r\n"

/-- Reply when the chosen id is not strictly greater than 0-0. -/
def xaddZeroErr : String :=
  "-ERR The ID specified in XADD must be greater than 0-0\r\n"

/-- Reply when the chosen id does not beat the stream's maximum. -/
def xaddTopErr : String :=
  "-ERR The ID specified in XADD is equal or smaller than the target stream top item\r\n"

/-- Result of the id-selection step of `handle_xadd`: either an early
error reply or the chosen identifier. -/
inductive XaddChoice
  | errReply (msg : String)
  | chosen (id : StreamID)
deriving DecidableEq, Repr

/-- Lines 63-95 of `commands.rs` (`handle_xadd`): pick the stream id for
the three id forms `*`, `ms-*` and `ms-seq`; `none` models the panic of
`trim_end_matches("-*").parse::<u64>().unwrap()` on a malformed time
part. -/
def chooseStreamId (now : Nat) (db : Db) (key id_str : String) : Option XaddChoice :=
  if id_str = "*" then
    match dbGet db key with
    | some rv =>
      match rv.value with
      | .StreamValue s => some (.chosen (StreamID.generate now s))
      | _ => some (.errReply xaddWrongType)
    | none => some (.chosen (StreamID.generate now []))
  else if id_str.data.contains '-' && ("-*".data).isSuffixOf id_str.data then
    match rustParseU64 (String.mk (trimEndList "-*".data id_str.data)) with
    | none => none
    | some t =>
      match dbGet db key with
      | some rv =>
        match rv.value with
        | .StreamValue s => some (.chosen (StreamID.generate_with_time t s))
        | _ => some (.errReply xaddWrongType)
      | none => some (.chosen ⟨t, if t = 0 then 1 else 0⟩)
  else
    match StreamID.from_str id_str with
    | some id => some (.chosen id)
    | none => some (.errReply "-ERR invalid stream ID\r\n")

/-- Lines 104-107 of `commands.rs`: fold the field/value argument pairs
into the entry map. -/
def buildEntry : List String → Entry → Entry
  | f :: v :: rest, e => buildEntry rest (entryInsert e f v)
  | _, e => e

/-- Structured outcome of `handle_xadd`. -/
inductive XaddOutcome
  | err (msg : String)
  | added (id : StreamID)
deriving DecidableEq, Repr

/-- The body of `handle_xadd` after the arity check (lines 59-133 of
`commands.rs`), in structured form. -/
def xadd_exec (now : Nat) (db : Db) (key id_str : String) (fields : List String) :
    Option (XaddOutcome × Db) :=
  match chooseStreamId now db key id_str with
      | none => none
      | some (.errReply m) => some (.err m, db)
      | some (.chosen id) =>
        if StreamID.is_valid id StreamID.zero = false then
          some (.err xaddZeroErr, db)
        else
          match dbGet db key with
          | some rv =>
            match rv.value with
            | .StreamValue s =>
              match keysMax? s with
              | some last_id =>
                if StreamID.is_valid id last_id = false then
                  some (.err xaddTopErr, db)
                else
                  some (.added id, dbInsert db key
                    (RedisValue.new
                      (.StreamValue (streamInsert id (buildEntry fields []) s)) now none))
              | none =>
                some (.added id, dbInsert db key
                  (RedisValue.new
                    (.StreamValue (streamInsert id (buildEntry fields []) s)) now none))
            | _ => some (.err xaddWrongType, db)
          | none =>
            some (.added id, dbInsert db key
              (RedisValue.new (.StreamValue [(id, buildEntry fields [])]) now none))

/-- `handle_xadd` of `commands.rs` with the reply in structured form
(`handle_xadd` below renders it to the RESP string).  `none` models a
panic. -/
def xadd_core (now : Nat) (db : Db) (args : List String) : Option (XaddOutcome × Db) :=
  if args.length < 4 ∨ args.length % 2 ≠ 0 then
    some (.err "-ERR wrong number of arguments for 'xadd' command\r\n", db)
  else
    match args with
    | key :: id_str :: fields => xadd_exec now db key id_str fields
    | _ => none

/-- `handle_xadd` of `commands.rs`: on success the reply is the chosen
identifier as a bulk string. -/
def handle_xadd (now : Nat) (db : Db) (args : List String) : Option (String × Db) :=
  match xadd_core now db args with
  | none => none
  | some (.err m, db2) => some (m, db2)
  | some (.added id, db2) =>
    some ("$" ++ toString (StreamID.toStr id).utf8ByteSize ++ "\r\n" ++
      StreamID.toStr id ++ "\r\n", db2)

/-- The wrong-type reply of `handle_xrange`. -/
def xrangeWrongType : String := "-ERR wrong type for 'xrange' command\r\n"

/-- `a ≤ b` on stream identifiers, as a Boolean (used for the closed
range of `XRANGE`). -/
def StreamID.leb (a b : StreamID) : Bool := ! StreamID.is_valid a b

/-- RESP rendering of the matching entries of `handle_xrange`
(lines 189-207 of `commands.rs`). -/
def xrangeRender : RStream → String
  | [] => ""
  | (id, entry) :: rest =>
    "*2\r\n" ++
    "$" ++ toString (StreamID.toStr id).utf8ByteSize ++ "\r\n" ++ StreamID.toStr id ++ "\r\n" ++
    "*" ++ toString (entry.length * 2) ++ "\r\n" ++
    String.join (entry.map (fun p =>
      "$" ++ toString p.1.utf8ByteSize ++ "\r\n" ++ p.1 ++ "\r\n" ++
      "$" ++ toString p.2.utf8ByteSize ++ "\r\n" ++ p.2 ++ "\r\n")) ++
    xrangeRender rest

/-- `handle_xrange` of `commands.rs`.  `none` models the panic of
`BTreeMap::range(start..=end)` on a reversed range (start strictly
greater than end).  Field order inside an entry follows the entry list
(the source's `HashMap` iteration order is arbitrary).  The keyspace is
read-only here, so only the reply is returned. -/
def handle_xrange (db : Db) (args : List String) : Option String :=
  match args with
  | key :: start_str :: end_str :: _ =>
    (match dbGet db key with
     | none => some "-ERR no such key\r\n"
     | some rv =>
       match rv.value with
       | .StreamValue s =>
         (match (if start_str = "-" then some StreamID.zero
                 else StreamID.from_str start_str) with
          | none => some "-ERR invalid start StreamID\r\n"
          | some start_id =>
            match (if end_str = "+" then some (⟨u64Bound - 1, u64Bound - 1⟩ : StreamID)
                   else StreamID.from_str end_str) with
            | none => some "-ERR invalid end StreamID\r\n"
            | some end_id =>
              if StreamID.is_valid start_id end_id then none
              else
                let entries := s.filter
                  (fun p => StreamID.leb start_id p.1 && StreamID.leb p.1 end_id)
                if entries.length = 0 then some "*0\r\n"
                else some ("*" ++ toString entries.length ++ "\r\n" ++ xrangeRender entries))
       | _ => some xrangeWrongType)
  | _ => some "-ERR wrong number of arguments for 'xrange' command\r\n"

/-- `should_forward_to_slaves` of `network.rs`. -/
def should_forward_to_slaves (command : String) : Bool :=
  match command with
  | "SET" | "GET" | "DEL" | "INCR" | "DECR" | "MSET" | "MGET" => true
  | _ => false

/-- The primary-side state touched by the fan-out step of `handle_client`
(lines 199-237 of `network.rs`): each registered replica's write half,
as the list of frames written to it so far, and the
`master_repl_offset` entry of the replication map (`some n` when the key
holds `ByteValue(n)`; the code treats anything else like an absent
key). -/
structure PrimaryState where
  slave_connections : List (List String)
  master_repl_offset : Option Nat
deriving DecidableEq, Repr

/-- Lines 199-237 of `network.rs`: after replying to a client command on
the primary, forward the original raw frame to every registered replica
and bump `master_repl_offset` by the frame's byte length once per
fan-out — but only when `should_forward_to_slaves` accepts the verb. -/
def fanout_step (st : PrimaryState) (command frame : String) : PrimaryState :=
  if should_forward_to_slaves command then
    { slave_connections := st.slave_connections.map (fun sent => sent ++ [frame])
      master_repl_offset := some (st.master_repl_offset.getD 0 + frame.utf8ByteSize) }
  else st

/-- The `REPLCONF GETACK *` frame broadcast by `WAIT` (line 88 of
`network.rs`). -/
def replconf_getack_message : String := "*3\r\n$8\r\nREPLCONF\r\n$6\r\nGETACK\r\n$1\r\n*\r\n"

/-- The marker the WAIT loop searches for in each replica read (line 142
of `network.rs`). -/
def ackMarker : String := "*3\r\n$8\r\nREPLCONF\r\n$3\r\nACK"

/-- Rust `str::contains(pat)` on character lists. -/
def listContainsSeq (pat : List Char) : List Char → Bool
  | [] => pat.isEmpty
  | c :: rest => pat.isPrefixOf (c :: rest) || listContainsSeq pat rest

/-- `response.contains("*3\r\n$8\r\nREPLCONF\r\n$3\r\nACK")` of the WAIT
loop. -/
def ackMatches (response : String) : Bool := listContainsSeq ackMarker.data response.data

/-- Number of ack-bearing reads among a list of replica socket reads. -/
def countAcks (reads : List String) : Nat := (reads.filter ackMatches).length

/-- The WAIT acknowledgement loop of `handle_client` (lines 123-159 of
`network.rs`), abstracted over the sequence of successful replica socket
reads observed before the deadline: the counter starts at 0, each read
whose contents contain the ACK marker increments it, and the loop
returns the counter as soon as it reaches `num_slaves`.  A `none` result
is the deadline (`tokio::time::timeout`) firing before the counter got
there. -/
def wait_count_loop (num_slaves : Nat) : Nat → List String → Option Nat
  | _, [] => none
  | cnt, r :: rest =>
    if ackMatches r then
      if num_slaves ≤ cnt + 1 then some (cnt + 1)
      else wait_count_loop num_slaves (cnt + 1) rest
    else wait_count_loop num_slaves cnt rest

/-- Lines 162-170 of `network.rs`: the reply written for `WAIT` is
`:{n}\r\n` when the loop returned `n`, and `:0\r\n` when the deadline
fired. -/
def wait_reply (num_slaves : Nat) (reads : List String) : String :=
  match wait_count_loop num_slaves 0 reads with
  | some n => ":" ++ toString n ++ "\r\n"
  | none => ":0\r\n"

/-- The scan of `find_crlf` of `parsing.rs`: index of the first `\r\n`
pair at or after position `i`. -/
def findCrlfAux : List Char → Nat → Option Nat
  | c1 :: c2 :: rest, i =>
    if c1 = '\r' ∧ c2 = '\n' then some i else findCrlfAux (c2 :: rest) (i + 1)
  | _, _ => none

/-- `find_crlf` of `parsing.rs`.  The outer `none` models the panic on an
empty slice: `0..bytes.len() - 1` underflows and the loop indexes out of
bounds. -/
def find_crlf (bytes : List Char) : Option (Option Nat) :=
  match bytes with
  | [] => none
  | _ => some (findCrlfAux bytes 0)

/-- One pushed element of `parse_redis_message`'s result vector at the
granularity the scanner (lines 18-94 of `parsing.rs`) determines it: an
error entry (pushed with a consumed length of 0) or a scanned frame with
its verb, its argument vector and the byte length the subsequent
dispatch step reports for it.  The reply string the dispatch step
computes for a scanned frame is the session's concern and is not
modelled; the session is taken to not be inside a MULTI transaction. -/
inductive ScanEntry
  | errEntry (response : String)
  | frame (command : Option String) (args : List String) (consumed : Nat)
deriving DecidableEq, Repr

/-- Outcome of one iteration of the scanner's while loop: a panic, an
error entry after which the while loop exits, or a scanned frame
(possibly preceded by an error entry pushed when the bulk-string for
loop broke out early). -/
inductive IterOut
  | crash
  | stop (err : String)
  | frameOut (pushedErr : Option String) (command : Option String)
      (args : List String) (scanned : Nat)
deriving DecidableEq, Repr

/-- The bulk-string for loop (lines 50-94 of `parsing.rs`), operating on
the unscanned suffix, with `cursor` the number of characters of this
message already scanned.  A `break` in the source pushes an error entry
and then falls through to the dispatch step with the partial command,
which `frameOut` records. -/
def parseArgsLoop : List Char → Nat → Nat → Option String → List String → IterOut
  | _, cursor, 0, command, args => .frameOut none command args cursor
  | suffix, cursor, r + 1, command, args =>
    match suffix with
    | [] => .crash
    | c :: tail =>
      if c = '$' then
        match find_crlf tail with
        | none => .crash
        | some none =>
          .frameOut (some "-ERR incomplete message\r\n") command args (cursor + 1)
        | some (some e) =>
          match rustParseUsize (String.mk (tail.take e)) with
          | none =>
            .frameOut (some "-ERR invalid bulk string length\r\n") command args (cursor + 1)
          | some bulk_len =>
            let rest2 := tail.drop (e + 2)
            if bulk_len + 2 ≤ rest2.length then
              let bulk_string := String.mk (rest2.take bulk_len)
              match command with
              | none =>
                parseArgsLoop (rest2.drop (bulk_len + 2))
                  (cursor + 1 + e + 2 + bulk_len + 2) r (some (rustUpper bulk_string)) args
              | some cmdv =>
                parseArgsLoop (rest2.drop (bulk_len + 2))
                  (cursor + 1 + e + 2 + bulk_len + 2) r (some cmdv) (args ++ [bulk_string])
            else
              .frameOut (some "-ERR incomplete bulk string\r\n") command args (cursor + 1 + e + 2)
      else .frameOut (some "-ERR expected bulk string\r\n") command args cursor

/-- One iteration of the scanner's while loop (lines 18-94 of
`parsing.rs`) on the unscanned suffix of the buffer. -/
def parseIter (bytes : List Char) : IterOut :=
  match bytes with
  | [] => .crash
  | c :: rest =>
    if c = '*' then
      match find_crlf rest with
      | none => .crash
      | some none => .stop "-ERR incomplete message\r\n"
      | some (some e) =>
        match rustParseUsize (String.mk (rest.take e)) with
        | none => .stop "-ERR invalid argument count\r\n"
        | some arg_count => parseArgsLoop (rest.drop (e + 2)) (1 + e + 2) arg_count none []
    else .stop "-ERR invalid format\r\n"

/-- The scanning behaviour of `parse_redis_message` of `parsing.rs`: the
list of results pushed over the whole buffer, with `none` modelling a
panic.  Each scanned frame advances the cursor by its scanned length and
the while loop resumes there; an error entry outside the for loop ends
the while loop. -/
def parse_redis_message_scan (bytes : List Char) : Option (List ScanEntry) :=
  if hb : bytes = [] then some []
  else
    match parseIter bytes with
    | .crash => none
    | .stop e => some [.errEntry e]
    | .frameOut pushedErr cmd args n =>
      if h : 0 < n then
        (parse_redis_message_scan (bytes.drop n)).map
          (fun restEntries =>
            pushedErr.toList.map ScanEntry.errEntry ++ ScanEntry.frame cmd args n :: restEntries)
      else none
termination_by bytes.length
decreasing_by
  simp only [List.length_drop]
  have : bytes.length ≠ 0 := fun hlen => hb (List.length_eq_zero.mp hlen)
  omega

/-- Total scanned length reported by the frame entries of a scan. -/
def scannedTotal : List ScanEntry → Nat
  | [] => 0
  | .errEntry _ :: rest => scannedTotal rest
  | .frame _ _ n :: rest => n + scannedTotal rest

/-- Number of error entries of a scan. -/
def errorEntryCount : List ScanEntry → Nat
  | [] => 0
  | .errEntry _ :: rest => errorEntryCount rest + 1
  | .frame _ _ _ :: rest => errorEntryCount rest

/-- Rust `str::lines()`: split on `'\n'`, dropping one trailing `'\r'`
from each piece and not producing a final empty piece. -/
def rustLines (s : String) : List (List Char) :=
  let parts := rustSplitChar '\n' s.data
  let parts :=
    match parts.getLast? with
    | some [] => parts.dropLast
    | _ => parts
  parts.map (fun p =>
    match p.getLast? with
    | some '\r' => p.dropLast
    | _ => p)

/-- The argument loop of `get_end_of_redis_message` of `network.rs`: for
each declared argument, add the length line and the following line to
the total, if they are present; absent or malformed lines silently
contribute nothing. -/
def endOfMessageLoop : List (List Char) → Nat → Nat → Nat
  | _, 0, total => total
  | lines, r + 1, total =>
    match lines with
    | [] => endOfMessageLoop [] r total
    | length_line :: rest =>
      match length_line with
      | '$' :: lenChars =>
        (match rustParseUsize (String.mk lenChars) with
         | some _ =>
           match rest with
           | [] => endOfMessageLoop [] r (total + length_line.length + 2)
           | arg :: rest2 => endOfMessageLoop rest2 r (total + length_line.length + 2 + arg.length + 2)
         | none => endOfMessageLoop rest r total)
      | _ => endOfMessageLoop rest r total

/-- `get_end_of_redis_message` of `network.rs`: a line-based guess at the
length of the first frame.  It never checks that the lines it adds up
are all present, so a truncated buffer can be declared complete. -/
def get_end_of_redis_message (message : String) : Option Nat :=
  match rustLines message with
  | [] => none
  | line :: lines =>
    match line with
    | '*' :: cntChars =>
      (match rustParseUsize (String.mk cntChars) with
       | some arg_count => some (endOfMessageLoop lines arg_count (line.length + 2))
       | none => none)
    | _ => none

theorem parse_scan_nil : parse_redis_message_scan [] = some [] := by
  rw [parse_redis_message_scan.eq_def]; simp

theorem parse_scan_crash (bytes : List Char) (hb : bytes ≠ [])
    (hiter : parseIter bytes = .crash) : parse_redis_message_scan bytes = none := by
  rw [parse_redis_message_scan.eq_def]; simp [hb, hiter]

theorem parse_scan_stop (bytes : List Char) (e : String) (hb : bytes ≠ [])
    (hiter : parseIter bytes = .stop e) :
    parse_redis_message_scan bytes = some [.errEntry e] := by
  rw [parse_redis_message_scan.eq_def]; simp [hb, hiter]

theorem parse_scan_step (bytes : List Char) (pe : Option String) (cmd : Option String)
    (args : List String) (n : Nat) (hb : bytes ≠ [])
    (hiter : parseIter bytes = .frameOut pe cmd args n) (hn : 0 < n) :
    parse_redis_message_scan bytes =
      (parse_redis_message_scan (bytes.drop n)).map
        (fun r => pe.toList.map ScanEntry.errEntry ++ ScanEntry.frame cmd args n :: r) := by
  rw [parse_redis_message_scan.eq_def]; simp [hb, hiter, hn]

theorem string_mk_data (s : String) : String.mk s.data = s := by
  rcases s with ⟨d⟩; rfl

theorem StreamID.le_refl (a : StreamID) : StreamID.le a a := Or.inr rfl

theorem StreamID.le_trans {a b c : StreamID} :
    StreamID.le a b → StreamID.le b c → StreamID.le a c := by
  intro hab hbc
  rcases hab with h | h
  · rcases hbc with h2 | h2
    · exact Or.inl (StreamID.lt_trans h h2)
    · exact Or.inl (h2 ▸ h)
  · rw [h]; exact hbc

theorem maxStep_le (acc : Option StreamID) (k : StreamID) :
    ∃ c, maxStep acc k = some c ∧ StreamID.le k c ∧
      (∀ a, acc = some a → StreamID.le a c) := by
  match acc with
  | none => exact ⟨k, rfl, StreamID.le_refl k, by intro a ha; cases ha⟩
  | some a =>
    by_cases hv : StreamID.is_valid k a = true
    · refine ⟨k, by simp [maxStep, hv], StreamID.le_refl k, ?_⟩
      intro a2 ha2
      injection ha2 with h
      subst h
      exact Or.inl ((StreamID.is_valid_iff_lt k a).mp hv)
    · refine ⟨a, by simp [maxStep, hv], ?_, ?_⟩
      · exact StreamID.le_of_not_valid (Bool.eq_false_iff.mpr hv)
      · intro a2 ha2
        injection ha2 with h
        subst h
        exact StreamID.le_refl a

theorem foldl_maxStep_le (l : List StreamID) :
    ∀ (acc : Option StreamID) (m : StreamID), l.foldl maxStep acc = some m →
      (∀ k ∈ l, StreamID.le k m) ∧ (∀ a, acc = some a → StreamID.le a m) := by
  induction l with
  | nil =>
    intro acc m h
    refine ⟨by simp, ?_⟩
    intro a ha
    rw [ha] at h
    cases h
    exact StreamID.le_refl m
  | cons k l ih =>
    intro acc m h
    simp only [List.foldl_cons] at h
    obtain ⟨c, hc, hkc, hacc⟩ := maxStep_le acc k
    rw [hc] at h
    obtain ⟨hmem, hcm⟩ := ih (some c) m h
    have hcm2 := hcm c rfl
    constructor
    · intro j hj
      rcases List.mem_cons.mp hj with hj | hj
      · exact hj ▸ StreamID.le_trans hkc hcm2
      · exact hmem j hj
    · intro a ha
      exact StreamID.le_trans (hacc a ha) hcm2

theorem foldl_maxStep_some (l : List StreamID) :
    ∀ (a : StreamID), ∃ m, l.foldl maxStep (some a) = some m := by
  induction l with
  | nil => intro a; exact ⟨a, rfl⟩
  | cons k l ih =>
    intro a
    simp only [List.foldl_cons]
    obtain ⟨c, hc, _, _⟩ := maxStep_le (some a) k
    rw [hc]
    exact ih c

theorem keysMax_le {s : RStream} {m : StreamID} (h : keysMax? s = some m) :
    ∀ k ∈ s.map Prod.fst, StreamID.le k m :=
  (foldl_maxStep_le (s.map Prod.fst) none m h).1

theorem keysMax_isSome {s : RStream} (hs : s ≠ []) : ∃ m, keysMax? s = some m := by
  match s with
  | [] => exact absurd rfl hs
  | p :: rest =>
    unfold keysMax?
    simp only [List.map_cons, List.foldl_cons]
    exact foldl_maxStep_some (rest.map Prod.fst) p.1

theorem streamInsert_mem (id : StreamID) (e : Entry) (s : RStream) :
    id ∈ (streamInsert id e s).map Prod.fst := by
  induction s with
  | nil => simp [streamInsert]
  | cons p rest ih =>
    rcases p with ⟨k, v⟩
    unfold streamInsert
    by_cases h1 : StreamID.is_valid k id
    · simp [h1]
    · by_cases h2 : k = id
      · subst h2
        simp [h1]
      · simp only [h1, h2, if_neg, Bool.false_eq_true, not_false_iff, if_false,
          List.map_cons, List.mem_cons]
        exact Or.inr ih

theorem dbGet_dbRemove_self (db : Db) (key : String) :
    dbGet (dbRemove db key) key = none := by
  induction db with
  | nil => rfl
  | cons p rest ih =>
    rcases p with ⟨k, v⟩
    by_cases h : k = key <;> simp [dbRemove, dbGet, h, ih]

theorem xadd_exec_added_stream {now : Nat} {db : Db} {key id_str : String}
    {fields : List String} {id : StreamID} {db2 : Db}
    (h : xadd_exec now db key id_str fields = some (.added id, db2)) :
    ∃ s2, dbStreamAt db2 key = some s2 ∧ id ∈ s2.map Prod.fst := by
  unfold xadd_exec at h
  split at h
  · simp at h
  · simp at h
  · split at h
    · simp at h
    · split at h
      · split at h
        · split at h
          · split at h
            · simp at h
            · rw [Option.some.injEq, Prod.mk.injEq, XaddOutcome.added.injEq] at h
              obtain ⟨h1, h2⟩ := h
              subst h1; subst h2
              simp only [dbStreamAt, dbGet_dbInsert_self, RedisValue.new]
              exact ⟨_, rfl, streamInsert_mem _ _ _⟩
          · rw [Option.some.injEq, Prod.mk.injEq, XaddOutcome.added.injEq] at h
            obtain ⟨h1, h2⟩ := h
            subst h1; subst h2
            simp only [dbStreamAt, dbGet_dbInsert_self, RedisValue.new]
            exact ⟨_, rfl, streamInsert_mem _ _ _⟩
        · simp at h
      · rw [Option.some.injEq, Prod.mk.injEq, XaddOutcome.added.injEq] at h
        obtain ⟨h1, h2⟩ := h
        subst h1; subst h2
        simp only [dbStreamAt, dbGet_dbInsert_self, RedisValue.new]
        exact ⟨_, rfl, by simp⟩

theorem xadd_exec_added_gt {now : Nat} {db : Db} {key id_str : String}
    {fields : List String} {id : StreamID} {db2 : Db} {s : RStream}
    (hs : dbStreamAt db key = some s)
    (h : xadd_exec now db key id_str fields = some (.added id, db2)) :
    ∀ j ∈ s.map Prod.fst, StreamID.lt j id := by
  intro j hj
  have hs_ne : s ≠ [] := by
    intro he; rw [he] at hj; simp at hj
  obtain ⟨m, hm⟩ := keysMax_isSome hs_ne
  have hle := keysMax_le hm j hj
  obtain ⟨rv, hrv, hrvs⟩ : ∃ rv, dbGet db key = some rv ∧ rv.value = .StreamValue s := by
    unfold dbStreamAt at hs
    cases hg : dbGet db key with
    | none => rw [hg] at hs; dsimp only at hs; cases hs
    | some rv =>
      rw [hg] at hs
      dsimp only at hs
      cases hv : rv.value with
      | IntegerValue n => rw [hv] at hs; dsimp only at hs; cases hs
      | StringValue t => rw [hv] at hs; dsimp only at hs; cases hs
      | StreamValue s2 =>
        rw [hv] at hs
        dsimp only at hs
        injection hs with he
        subst he
        exact ⟨rv, rfl, hv⟩
  unfold xadd_exec at h
  split at h
  · simp at h
  · simp at h
  · split at h
    · simp at h
    · rw [hrv] at h
      dsimp only at h
      rw [hrvs] at h
      dsimp only at h
      rw [hm] at h
      dsimp only at h
      split at h
      · simp at h
      · rename_i x0 idc hchoice hz hvfalse
        rw [Option.some.injEq, Prod.mk.injEq, XaddOutcome.added.injEq] at h
        obtain ⟨h1, h2⟩ := h
        have hv : StreamID.is_valid idc m = true := by
          cases hb : StreamID.is_valid idc m
          · exact absurd hb hvfalse
          · rfl
        rw [← h1]
        exact StreamID.lt_of_le_of_lt hle ((StreamID.is_valid_iff_lt idc m).mp hv)

theorem xadd_core_added_exec {now : Nat} {db : Db} {key id_str : String}
    {fields : List String} {out : XaddOutcome × Db}
    (h : xadd_core now db (key :: id_str :: fields) = some out)
    (hne : ∀ m, out.1 ≠ .err m) :
    xadd_exec now db key id_str fields = some out := by
  unfold xadd_core at h
  split at h
  · injection h with he
    exact absurd (congrArg Prod.fst he).symm (by simpa using hne _)
  · exact h

/-- The canonical payload `GET` returns for a value stored by a plain
`SET k v`: the decimal rendering of the parsed integer when `v` parses
as a u64, otherwise `v` itself. -/
def storedPayload (v : String) : String :=
  match rustParseU64 v with
  | some n => toString n
  | none => v

/-- Byte length of `storedPayload` as `RedisValueType::len` computes it. -/
def storedPayloadLen (v : String) : Nat :=
  match rustParseU64 v with
  | some n => (toString n).length
  | none => v.utf8ByteSize

theorem should_forward_iff (command : String) :
    should_forward_to_slaves command = true ↔
      command ∈ ["SET", "GET", "DEL", "INCR", "DECR", "MSET", "MGET"] := by
  constructor
  · intro h
    unfold should_forward_to_slaves at h
    split at h
    · simp_all
    · simp_all
    · simp_all
    · simp_all
    · simp_all
    · simp_all
    · simp_all
    · cases h
  · intro h
    simp only [List.mem_cons, List.mem_singleton] at h
    rcases h with rfl | rfl | rfl | rfl | rfl | rfl | rfl | h
    · rfl
    · rfl
    · rfl
    · rfl
    · rfl
    · rfl
    · rfl
    · simp at h

/-- A correctly framed bulk string, with an explicitly given length
line (used to describe the complete well-formed frames the decoder must
accept). -/
def encodeBulk (lenStr payload : String) : List Char :=
  '$' :: (lenStr.data ++ '\r' :: '\n' :: (payload.data ++ ['\r', '\n']))

/-- Concatenation of framed bulk strings. -/
def encodeBulks : List (String × String) → List Char
  | [] => []
  | (l, w) :: rest => encodeBulk l w ++ encodeBulks rest

/-- A complete well-formed frame: `*`, a count line, and the framed bulk
strings. -/
def encodeFrame (cntStr : String) (ws : List (String × String)) : List Char :=
  '*' :: (cntStr.data ++ '\r' :: '\n' :: encodeBulks ws)

/-- How the scanner's for loop accumulates the verb (first bulk,
upper-cased) and the remaining arguments. -/
def accumulateArgs : Option String → List String → List String → Option String × List String
  | cmd, args, [] => (cmd, args)
  | none, args, w :: ws => accumulateArgs (some (rustUpper w)) args ws
  | some c, args, w :: ws => accumulateArgs (some c) (args ++ [w]) ws

theorem findCrlfAux_append_crlf (cs rest : List Char) (i : Nat) (h : '\r' ∉ cs) :
    findCrlfAux (cs ++ '\r' :: '\n' :: rest) i = some (i + cs.length) := by
  induction cs generalizing i with
  | nil => simp [findCrlfAux]
  | cons c cs2 ih =>
    have hc : c ≠ '\r' := fun he => h (he ▸ List.mem_cons_self c cs2)
    have h2 : '\r' ∉ cs2 := fun he => h (List.mem_cons_of_mem c he)
    cases cs2 with
    | nil =>
      simp only [List.cons_append, List.nil_append, findCrlfAux]
      rw [if_neg (by simp [hc]), if_pos (by simp)]
      simp
    | cons c2 cs3 =>
      simp only [List.cons_append, findCrlfAux]
      rw [if_neg (by simp [hc])]
      simp only [List.append_eq]
      have := ih (i + 1) h2
      simp only [List.cons_append] at this
      rw [this]
      congr 1
      simp only [List.length_cons]
      omega

theorem find_crlf_append (cs rest : List Char) (h : '\r' ∉ cs) :
    find_crlf (cs ++ '\r' :: '\n' :: rest) = some (some cs.length) := by
  cases cs with
  | nil => simp [find_crlf, findCrlfAux]
  | cons c cs2 =>
    simp only [List.cons_append, find_crlf]
    rw [show findCrlfAux (c :: (cs2 ++ '\r' :: '\n' :: rest)) 0 =
        findCrlfAux ((c :: cs2) ++ '\r' :: '\n' :: rest) 0 from by simp]
    rw [findCrlfAux_append_crlf _ _ _ h]
    simp

theorem accumulateArgs_some (c : String) (args ps : List String) :
    accumulateArgs (some c) args ps = (some c, args ++ ps) := by
  induction ps generalizing args with
  | nil => simp [accumulateArgs]
  | cons w ps ih => simp [accumulateArgs, ih]

theorem parseArgsLoop_encode (ws : List (String × String)) :
    ∀ (k : Nat) (cmd : Option String) (args : List String) (rest : List Char),
    (∀ p ∈ ws, rustParseUsize p.1 = some p.2.data.length ∧ '\r' ∉ p.1.data) →
    parseArgsLoop (encodeBulks ws ++ rest) k ws.length cmd args =
      .frameOut none (accumulateArgs cmd args (ws.map Prod.snd)).1
        (accumulateArgs cmd args (ws.map Prod.snd)).2 (k + (encodeBulks ws).length) := by
  induction ws with
  | nil =>
    intro k cmd args rest hws
    simp [encodeBulks, parseArgsLoop, accumulateArgs]
  | cons p ws ih =>
    intro k cmd args rest hws
    rcases p with ⟨l, w⟩
    obtain ⟨hparse, hcr⟩ := hws (l, w) (List.mem_cons_self _ _)
    dsimp only at hparse hcr
    have hws2 : ∀ p ∈ ws, rustParseUsize p.1 = some p.2.data.length ∧ '\r' ∉ p.1.data :=
      fun p hp => hws p (List.mem_cons_of_mem _ hp)
    have hbuf : encodeBulks ((l, w) :: ws) ++ rest =
        '$' :: (l.data ++ '\r' :: '\n' :: (w.data ++ '\r' :: '\n' :: (encodeBulks ws ++ rest))) := by
      simp [encodeBulks, encodeBulk]
    rw [hbuf]
    show parseArgsLoop _ k (ws.length + 1) cmd args = _
    unfold parseArgsLoop
    dsimp only
    rw [if_pos rfl]
    rw [find_crlf_append _ _ hcr]
    dsimp only
    rw [List.take_left' rfl, string_mk_data, hparse]
    dsimp only
    have hdrop : (l.data ++ '\r' :: '\n' :: (w.data ++ '\r' :: '\n' :: (encodeBulks ws ++ rest))).drop
        (l.data.length + 2) = w.data ++ '\r' :: '\n' :: (encodeBulks ws ++ rest) := by
      rw [show l.data ++ '\r' :: '\n' :: (w.data ++ '\r' :: '\n' :: (encodeBulks ws ++ rest)) =
          (l.data ++ ['\r', '\n']) ++ (w.data ++ '\r' :: '\n' :: (encodeBulks ws ++ rest)) from by simp]
      exact List.drop_left' (by simp)
    rw [hdrop]
    rw [if_pos (by simp)]
    rw [List.take_left' rfl, string_mk_data]
    have hdrop2 : (w.data ++ '\r' :: '\n' :: (encodeBulks ws ++ rest)).drop (w.data.length + 2) =
        encodeBulks ws ++ rest := by
      rw [show w.data ++ '\r' :: '\n' :: (encodeBulks ws ++ rest) =
          (w.data ++ ['\r', '\n']) ++ (encodeBulks ws ++ rest) from by simp]
      exact List.drop_left' (by simp)
    rw [hdrop2]
    cases cmd with
    | none =>
      dsimp only
      rw [ih (k + 1 + l.data.length + 2 + w.data.length + 2) (some (rustUpper w)) args rest hws2]
      simp only [List.map_cons, accumulateArgs]
      congr 1
      simp [encodeBulks, encodeBulk]
      omega
    | some c =>
      dsimp only
      rw [ih (k + 1 + l.data.length + 2 + w.data.length + 2) (some c) (args ++ [w]) rest hws2]
      simp only [List.map_cons, accumulateArgs]
      congr 1
      simp [encodeBulks, encodeBulk]
      omega

theorem parseIter_encodeFrame (cntStr : String) (ws : List (String × String))
    (hcnt : rustParseUsize cntStr = some ws.length) (hcr : '\r' ∉ cntStr.data)
    (hws : ∀ p ∈ ws, rustParseUsize p.1 = some p.2.data.length ∧ '\r' ∉ p.1.data) :
    parseIter (encodeFrame cntStr ws) =
      .frameOut none (accumulateArgs none [] (ws.map Prod.snd)).1
        (accumulateArgs none [] (ws.map Prod.snd)).2 (encodeFrame cntStr ws).length := by
  unfold parseIter encodeFrame
  dsimp only
  rw [if_pos rfl]
  rw [find_crlf_append _ _ hcr]
  dsimp only
  rw [List.take_left' rfl, string_mk_data, hcnt]
  dsimp only
  have hdrop : (cntStr.data ++ '\r' :: '\n' :: encodeBulks ws).drop (cntStr.data.length + 2) =
      encodeBulks ws := by
    rw [show cntStr.data ++ '\r' :: '\n' :: encodeBulks ws =
        (cntStr.data ++ ['\r', '\n']) ++ encodeBulks ws from by simp]
    exact List.drop_left' (by simp)
  rw [hdrop]
  rw [show encodeBulks ws = encodeBulks ws ++ ([] : List Char) from by simp]
  rw [parseArgsLoop_encode ws (1 + cntStr.data.length + 2) none [] [] hws]
  congr 1
  simp
  omega

/-- A replica socket read carrying a `REPLCONF ACK` frame, as a replica
sends it in reply to `REPLCONF GETACK *`. -/
def replconf_ack_read : String := "*3\r\n$8\r\nREPLCONF\r\n$3\r\nACK\r\n$1\r\n0\r\n"

/-- C1: the claim says the WAIT reply `:k` reports the number of replicas
that acknowledged, including a timeout with `0 < k < numreplicas`.  The
code instead replies `:0` whenever the deadline fires: here one
acknowledgement arrives before the deadline of a `WAIT 2`, yet the reply
is `:0\r\n` and not `:1\r\n`.  (The reply is `:k` only when k reaches
`numreplicas` before the deadline, and `:0` with no replicas.) -/
theorem C1_wait_timeout_discards_partial_acks :
    countAcks [replconf_ack_read] = 1 ∧
    wait_reply 2 [replconf_ack_read] = ":0\r\n" ∧
    (":0\r\n" : String) ≠ ":1\r\n" ∧
    wait_reply 2 [replconf_ack_read, replconf_ack_read] = ":2\r\n" ∧
    wait_reply 1 [replconf_ack_read] = ":1\r\n" ∧
    wait_reply 2 [] = ":0\r\n" := by decide

/-- C2 counterexample: the claim says a frame is forwarded (and the
offset bumped) iff the verb is a write command SET, DEL, INCR or XADD,
and that read verbs such as GET are never propagated.  The source's
forwarding predicate accepts GET and rejects XADD: a GET frame is pushed
to the registered replica and counted into `master_repl_offset`, while
an XADD frame leaves the state untouched. -/
theorem C2_counterexample_get_forwarded_xadd_not :
    should_forward_to_slaves "GET" = true ∧
    should_forward_to_slaves "XADD" = false ∧
    (fanout_step ⟨[[]], some 0⟩ "GET" "*2\r\n$3\r\nGET\r\n$1\r\nk\r\n").slave_connections =
      [["*2\r\n$3\r\nGET\r\n$1\r\nk\r\n"]] ∧
    (fanout_step ⟨[[]], some 0⟩ "GET" "*2\r\n$3\r\nGET\r\n$1\r\nk\r\n").master_repl_offset =
      some 20 ∧
    fanout_step ⟨[[]], some 0⟩ "XADD"
      "*5\r\n$4\r\nXADD\r\n$1\r\ns\r\n$3\r\n1-1\r\n$1\r\na\r\n$1\r\n1\r\n" =
      ⟨[[]], some 0⟩ := by decide

/-- C2 (amended): a received frame is forwarded to every registered
replica and `master_repl_offset` is incremented by the frame's byte
length once per fan-out if and only if the verb is one of SET, GET, DEL,
INCR, DECR, MSET, MGET — the source's hard-coded list, which includes
the read verbs GET/MGET and omits XADD. -/
theorem C2_forwarding_amended (st : PrimaryState) (command frame : String) :
    (should_forward_to_slaves command = true ↔
      command ∈ ["SET", "GET", "DEL", "INCR", "DECR", "MSET", "MGET"]) ∧
    (should_forward_to_slaves command = true →
      (fanout_step st command frame).slave_connections =
        st.slave_connections.map (fun sent => sent ++ [frame]) ∧
      (fanout_step st command frame).master_repl_offset =
        some (st.master_repl_offset.getD 0 + frame.utf8ByteSize)) ∧
    (should_forward_to_slaves command = false → fanout_step st command frame = st) := by
  refine ⟨should_forward_iff command, ?_, ?_⟩
  · intro h
    constructor
    · simp [fanout_step, h]
    · simp [fanout_step, h]
  · intro h
    simp [fanout_step, h]

/-- C2 witness: the amended characterisation applied to a SET frame (one
registered replica receives it, offset bumped by its 23 bytes) and to a
PING (nothing happens). -/
theorem C2_forwarding_amended_witness :
    (fanout_step ⟨[[]], some 0⟩ "SET"
      "*3\r\n$3\r\nSET\r\n$1\r\nk\r\n$1\r\nv\r\n").slave_connections =
      [["*3\r\n$3\r\nSET\r\n$1\r\nk\r\n$1\r\nv\r\n"]] ∧
    fanout_step ⟨[[]], some 0⟩ "PING" "*1\r\n$4\r\nPING\r\n" = ⟨[[]], some 0⟩ := by
  constructor
  · rw [((C2_forwarding_amended ⟨[[]], some 0⟩ "SET"
      "*3\r\n$3\r\nSET\r\n$1\r\nk\r\n$1\r\nv\r\n").2.1 (by decide)).1]
    decide
  · exact (C2_forwarding_amended ⟨[[]], some 0⟩ "PING" "*1\r\n$4\r\nPING\r\n").2.2 (by decide)

/-- C3: two consecutive XADD invocations on the same stream that both
succeed (return an identifier rather than an error) return strictly
increasing identifiers in the lexicographic (ms, seq) order.  The id
strings are arbitrary, so this covers all three id forms (`ms-seq`,
`ms-*` and `*`). -/
theorem C3_xadd_ids_strictly_increase
    (now1 now2 : Nat) (db0 db1 db2 : Db) (key id_str1 id_str2 : String)
    (fields1 fields2 : List String) (id1 id2 : StreamID)
    (h1 : xadd_core now1 db0 (key :: id_str1 :: fields1) = some (.added id1, db1))
    (h2 : xadd_core now2 db1 (key :: id_str2 :: fields2) = some (.added id2, db2)) :
    StreamID.lt id1 id2 := by
  have e1 := xadd_core_added_exec h1 (by intro m hm; cases hm)
  have e2 := xadd_core_added_exec h2 (by intro m hm; cases hm)
  obtain ⟨s2, hs2, hmem⟩ := xadd_exec_added_stream e1
  exact xadd_exec_added_gt hs2 e2 id1 hmem

/-- C3 witness: `XADD s 1-1 a b` then `XADD s 2-2 a c` on an empty
keyspace, with 1-1 < 2-2. -/
theorem C3_xadd_ids_strictly_increase_witness : StreamID.lt ⟨1, 1⟩ ⟨2, 2⟩ :=
  C3_xadd_ids_strictly_increase 0 0 []
    [("s", RedisValue.new (.StreamValue [(⟨1, 1⟩, [("a", "b")])]) 0 none)]
    [("s", RedisValue.new
      (.StreamValue (streamInsert ⟨2, 2⟩ [("a", "c")] [(⟨1, 1⟩, [("a", "b")])])) 0 none)]
    "s" "1-1" "2-2" ["a", "b"] ["a", "c"] ⟨1, 1⟩ ⟨2, 2⟩ (by decide) (by decide)

/-- C4: for an XADD whose argument count is valid, whose key is absent or
holds a stream, and whose chosen identifier is `id`: if `id` is not
strictly greater than 0-0 the reply is the `greater than 0-0` error and
nothing changes; if `id` beats 0-0 but not the stream's current maximum
the reply is the `top item` error and nothing changes; and when `id`
beats both, the entry is inserted and the reply is the identifier as a
bulk string. -/
theorem C4_xadd_validation (now : Nat) (db : Db) (key id_str : String) (fields : List String)
    (id : StreamID)
    (harity : ¬((key :: id_str :: fields).length < 4 ∨ (key :: id_str :: fields).length % 2 ≠ 0))
    (hchoice : chooseStreamId now db key id_str = some (.chosen id))
    (hkey : dbGet db key = none ∨ ∃ rv s, dbGet db key = some rv ∧ rv.value = .StreamValue s) :
    (StreamID.is_valid id StreamID.zero = false →
      handle_xadd now db (key :: id_str :: fields) = some (xaddZeroErr, db)) ∧
    (∀ rv s m, StreamID.is_valid id StreamID.zero = true →
      dbGet db key = some rv → rv.value = .StreamValue s → keysMax? s = some m →
      StreamID.is_valid id m = false →
      handle_xadd now db (key :: id_str :: fields) = some (xaddTopErr, db)) ∧
    (StreamID.is_valid id StreamID.zero = true →
      (∀ rv s m, dbGet db key = some rv → rv.value = .StreamValue s →
        keysMax? s = some m → StreamID.is_valid id m = true) →
      ∃ db2, handle_xadd now db (key :: id_str :: fields) =
          some ("$" ++ toString (StreamID.toStr id).utf8ByteSize ++ "\r\n" ++
            StreamID.toStr id ++ "\r\n", db2) ∧
        ∃ s2, dbStreamAt db2 key = some s2 ∧ id ∈ s2.map Prod.fst) := by
  have hcore : xadd_core now db (key :: id_str :: fields) = xadd_exec now db key id_str fields := by
    unfold xadd_core
    rw [if_neg harity]
  refine ⟨?_, ?_, ?_⟩
  · intro hz
    unfold handle_xadd
    rw [hcore]
    unfold xadd_exec
    rw [hchoice]
    dsimp only
    rw [if_pos hz]
  · intro rv s m hz hget hval hmax hvfalse
    unfold handle_xadd
    rw [hcore]
    unfold xadd_exec
    rw [hchoice]
    dsimp only
    rw [if_neg (by simp [hz]), hget]
    dsimp only
    rw [hval]
    dsimp only
    rw [hmax]
    dsimp only
    rw [if_pos hvfalse]
  · intro hz hok
    unfold handle_xadd
    rw [hcore]
    unfold xadd_exec
    rw [hchoice]
    dsimp only
    rw [if_neg (by simp [hz])]
    rcases hkey with hnone | ⟨rv, s, hget, hval⟩
    · rw [hnone]
      dsimp only
      refine ⟨_, rfl, ?_⟩
      simp [dbStreamAt, dbGet_dbInsert_self, RedisValue.new]
    · rw [hget]
      dsimp only
      rw [hval]
      dsimp only
      cases hmax : keysMax? s with
      | none =>
        dsimp only
        refine ⟨_, rfl, ?_⟩
        simp only [dbStreamAt, dbGet_dbInsert_self, RedisValue.new]
        exact ⟨_, rfl, streamInsert_mem _ _ _⟩
      | some m =>
        dsimp only
        rw [if_neg (by simp [hok rv s m hget hval hmax])]
        refine ⟨_, rfl, ?_⟩
        simp only [dbStreamAt, dbGet_dbInsert_self, RedisValue.new]
        exact ⟨_, rfl, streamInsert_mem _ _ _⟩

/-- C4 witness: `XADD s 1-1 a b` on an empty keyspace succeeds, replying
with the identifier as a bulk string and inserting the entry. -/
theorem C4_xadd_validation_witness :
    ∃ db2, handle_xadd 0 [] ["s", "1-1", "a", "b"] =
        some ("$" ++ toString (StreamID.toStr ⟨1, 1⟩).utf8ByteSize ++ "\r\n" ++
          StreamID.toStr ⟨1, 1⟩ ++ "\r\n", db2) ∧
      ∃ s2, dbStreamAt db2 "s" = some s2 ∧ (⟨1, 1⟩ : StreamID) ∈ s2.map Prod.fst :=
  (C4_xadd_validation 0 [] "s" "1-1" ["a", "b"] ⟨1, 1⟩ (by decide) (by decide)
    (Or.inl rfl)).2.2 (by decide) (fun rv s m hget _ _ => Option.noConfusion hget)

/-- The keyspace after `SET k abc PX 0` at time 0: one record, already
expired. -/
def c5_db : Db := [("k", RedisValue.new (.StringValue "abc") 0 (some 0))]

/-- C5: the claim (and the spec's invariant) says `TYPE k` returns `none`
exactly when `GET k` returns the null bulk, so `TYPE` on an
expired-but-present record must return `none`.  The code's `handle_type`
never consults expiry: after `SET k abc PX 0`, `GET k` replies the null
bulk and removes the record, yet `TYPE k` replies `+string\r\n`. -/
theorem C5_type_ignores_expiry :
    handle_set 0 [] ["k", "abc", "PX", "0"] = some ("+OK\r\n", c5_db) ∧
    handle_get 100 c5_db ["k"] = some ("$-1\r\n", []) ∧
    handle_type c5_db ["k"] = some "+string\r\n" ∧
    handle_type c5_db ["k"] ≠ some "+none\r\n" := by decide

/-- The keyspace after `SET k 007`: the value is normalised to the
integer 7 by `impl From<String> for RedisValueType`. -/
def c6_db : Db := [("k", RedisValue.new (.IntegerValue 7) 0 none)]

/-- C6 counterexample: the claim says `GET` returns the value
byte-for-byte, including strings like `007` that parse as integers.  The
value conversion stores `007` as the integer 7, so `GET k` replies
`$1\r\n7\r\n`, not `$3\r\n007\r\n`. -/
theorem C6_counterexample_integer_normalisation :
    handle_set 0 [] ["k", "007"] = some ("+OK\r\n", c6_db) ∧
    handle_get 1 c6_db ["k"] = some ("$1\r\n7\r\n", c6_db) ∧
    ("$1\r\n7\r\n" : String) ≠ "$3\r\n007\r\n" := by decide

/-- C6 (amended): `SET k v` then `GET k` replies a bulk string whose
payload is the canonical stored form of `v`: `v` itself when `v` does
not parse as a u64, and the canonical decimal rendering of the parsed
integer otherwise (so non-canonical spellings such as `007` are not
returned byte-for-byte). -/
theorem C6_set_get_roundtrip_amended (now1 now2 : Nat) (db : Db) (key v : String) :
    handle_set now1 db [key, v] =
      some ("+OK\r\n", dbInsert db key (RedisValue.new (RedisValueType.fromString v) now1 none)) ∧
    handle_get now2 (dbInsert db key (RedisValue.new (RedisValueType.fromString v) now1 none)) [key] =
      some ("$" ++ toString (storedPayloadLen v) ++ "\r\n" ++ storedPayload v ++ "\r\n",
        dbInsert db key (RedisValue.new (RedisValueType.fromString v) now1 none)) := by
  constructor
  · rfl
  · unfold handle_get
    dsimp only
    rw [dbGet_dbInsert_self]
    cases hp : rustParseU64 v with
    | some n =>
      simp [RedisValue.new, RedisValue.is_expired, RedisValueType.fromString, hp,
        RedisValueType.len, RedisValueType.display, storedPayload, storedPayloadLen]
    | none =>
      simp [RedisValue.new, RedisValue.is_expired, RedisValueType.fromString, hp,
        RedisValueType.len, RedisValueType.display, storedPayload, storedPayloadLen]

/-- C7: `SET k v PX 0` stores a record carrying the already-expired
sentinel; a later `GET k` (at any time) replies the null bulk and
removes the record, and the record is then observed to be gone from the
keyspace. -/
theorem C7_set_px0_expired_get_removes (now1 now2 : Nat) (db : Db) (key v : String) :
    handle_set now1 db [key, v, "PX", "0"] =
      some ("+OK\r\n", dbInsert db key (RedisValue.new (RedisValueType.fromString v) now1 (some 0))) ∧
    handle_get now2 (dbInsert db key (RedisValue.new (RedisValueType.fromString v) now1 (some 0))) [key] =
      some ("$-1\r\n",
        dbRemove (dbInsert db key (RedisValue.new (RedisValueType.fromString v) now1 (some 0))) key) ∧
    dbGet (dbRemove (dbInsert db key (RedisValue.new (RedisValueType.fromString v) now1 (some 0))) key)
      key = none := by
  refine ⟨rfl, ?_, dbGet_dbRemove_self _ _⟩
  unfold handle_get
  dsimp only
  rw [dbGet_dbInsert_self]
  simp [RedisValue.new, RedisValue.is_expired]

/-- C8 counterexample: the claim says that on a buffer without a complete
frame the decoder consumes nothing and produces no error, failing only
on syntactically invalid prefixes.  On the truncated buffer
`*1\r\n$4\r\nPI` the scanner pushes an `-ERR incomplete bulk string`
entry, dispatches the partial frame consuming its 8 scanned bytes, and
then reports `-ERR invalid format` on the stranded payload bytes; on the
truncated buffer `*1\r\n` it panics outright (out-of-bounds index),
while `get_end_of_redis_message` declares that incomplete buffer a
complete 4-byte message. -/
theorem C8_counterexample_truncation_errors :
    parse_redis_message_scan "*1\r\n$4\r\nPI".data =
      some [.errEntry "-ERR incomplete bulk string\r\n", .frame none [] 8,
        .errEntry "-ERR invalid format\r\n"] ∧
    scannedTotal [ScanEntry.errEntry "-ERR incomplete bulk string\r\n",
      ScanEntry.frame none [] 8, ScanEntry.errEntry "-ERR invalid format\r\n"] = 8 ∧
    errorEntryCount [ScanEntry.errEntry "-ERR incomplete bulk string\r\n",
      ScanEntry.frame none [] 8, ScanEntry.errEntry "-ERR invalid format\r\n"] = 2 ∧
    parse_redis_message_scan "*1\r\n".data = none ∧
    get_end_of_redis_message "*1\r\n" = some 4 := by
  refine ⟨?_, by decide, by decide, parse_scan_crash _ (by decide) (by decide), by decide⟩
  rw [parse_scan_step _ (some "-ERR incomplete bulk string\r\n") none [] 8
    (by decide) (by decide) (by decide)]
  rw [show ("*1\r\n$4\r\nPI".data.drop 8) = "PI".data from by decide]
  rw [parse_scan_stop _ "-ERR invalid format\r\n" (by decide) (by decide)]
  rfl

/-- C8 (amended): on a buffer holding exactly one complete well-formed
frame the scanner consumes the entire frame, yielding the upper-cased
verb and the byte-exact arguments with no error entry; but a truncated
buffer is not silently retained: the scanner pushes `-ERR incomplete`
entries, can consume the scanned prefix of the partial frame, and on
some truncated buffers panics. -/
theorem C8_complete_frame_scan_amended (cntStr l0 w0 : String) (rws : List (String × String))
    (hcnt : rustParseUsize cntStr = some (rws.length + 1)) (hcr : '\r' ∉ cntStr.data)
    (hws : ∀ p ∈ (l0, w0) :: rws, rustParseUsize p.1 = some p.2.data.length ∧ '\r' ∉ p.1.data) :
    parse_redis_message_scan (encodeFrame cntStr ((l0, w0) :: rws)) =
      some [.frame (some (rustUpper w0)) (rws.map Prod.snd)
        (encodeFrame cntStr ((l0, w0) :: rws)).length] := by
  have hlen : ((l0, w0) :: rws).length = rws.length + 1 := by simp
  have hiter := parseIter_encodeFrame cntStr ((l0, w0) :: rws) (by rw [hlen]; exact hcnt) hcr hws
  have hacc : accumulateArgs none [] (((l0, w0) :: rws).map Prod.snd) =
      (some (rustUpper w0), rws.map Prod.snd) := by
    simp only [List.map_cons, accumulateArgs]
    rw [accumulateArgs_some]
    simp
  rw [hacc] at hiter
  have hne : encodeFrame cntStr ((l0, w0) :: rws) ≠ [] := by simp [encodeFrame]
  have hpos : 0 < (encodeFrame cntStr ((l0, w0) :: rws)).length :=
    List.length_pos.mpr hne
  rw [parse_scan_step _ none (some (rustUpper w0)) (rws.map Prod.snd) _ hne hiter hpos]
  rw [List.drop_length]
  rw [parse_scan_nil]
  rfl

/-- C8 witness: the complete frame `*2\r\n$4\r\nECHO\r\n$2\r\nhi\r\n`
decodes to the single command ECHO with argument `hi`, consuming all of
its bytes. -/
theorem C8_complete_frame_scan_amended_witness :
    parse_redis_message_scan (encodeFrame "2" [("4", "ECHO"), ("2", "hi")]) =
      some [.frame (some (rustUpper "ECHO")) ["hi"]
        (encodeFrame "2" [("4", "ECHO"), ("2", "hi")]).length] :=
  C8_complete_frame_scan_amended "2" "4" "ECHO" [("2", "hi")] (by decide) (by decide) (by decide)

/-- C9 counterexample: the claim says `XRANGE` on an absent key replies
the empty array `*0\r\n`.  The source instead replies the error
`-ERR no such key`. -/
theorem C9_counterexample_missing_key_error :
    handle_xrange [] ["s", "-", "+"] = some "-ERR no such key\r\n" ∧
    (some "-ERR no such key\r\n" : Option String) ≠ some "*0\r\n" := by decide

/-- C9 (amended): `XRANGE key start end` replies the empty array
`*0\r\n` when the key holds a stream, the bounds parse, start ≤ end and
no entry's identifier lies in the closed range; when the key is absent
the reply is the error `-ERR no such key`, not the empty array.  (When
start exceeds end the source panics in `BTreeMap::range`.) -/
theorem C9_xrange_empty_amended (db : Db) (key start_str end_str : String)
    (extra : List String) :
    (dbGet db key = none →
      handle_xrange db (key :: start_str :: end_str :: extra) =
        some "-ERR no such key\r\n") ∧
    (∀ rv s start_id end_id, dbGet db key = some rv → rv.value = .StreamValue s →
      (if start_str = "-" then some StreamID.zero else StreamID.from_str start_str) =
        some start_id →
      (if end_str = "+" then some (⟨u64Bound - 1, u64Bound - 1⟩ : StreamID)
        else StreamID.from_str end_str) = some end_id →
      StreamID.is_valid start_id end_id = false →
      (s.filter (fun p => StreamID.leb start_id p.1 && StreamID.leb p.1 end_id)).length = 0 →
      handle_xrange db (key :: start_str :: end_str :: extra) = some "*0\r\n") := by
  constructor
  · intro h
    unfold handle_xrange
    dsimp only
    rw [h]
  · intro rv s start_id end_id hget hval hs he hrange hempty
    unfold handle_xrange
    dsimp only
    rw [hget]
    dsimp only
    rw [hval]
    dsimp only
    rw [hs]
    dsimp only
    rw [he]
    dsimp only
    rw [if_neg (by simp [hrange]), if_pos hempty]

/-- C9 witness: the amended statement applied to an absent key and to a
stream whose only entry 5-5 lies outside the queried range 1-1..2-2. -/
theorem C9_xrange_empty_amended_witness :
    handle_xrange [] ["s", "-", "+"] = some "-ERR no such key\r\n" ∧
    handle_xrange [("s", RedisValue.new (.StreamValue [(⟨5, 5⟩, [("a", "b")])]) 0 none)]
      ["s", "1-1", "2-2"] = some "*0\r\n" := by
  constructor
  · exact (C9_xrange_empty_amended [] "s" "-" "+" []).1 rfl
  · exact (C9_xrange_empty_amended
      [("s", RedisValue.new (.StreamValue [(⟨5, 5⟩, [("a", "b")])]) 0 none)]
      "s" "1-1" "2-2" []).2
      (RedisValue.new (.StreamValue [(⟨5, 5⟩, [("a", "b")])]) 0 none)
      [(⟨5, 5⟩, [("a", "b")])] ⟨1, 1⟩ ⟨2, 2⟩
      (by decide) (by decide) (by decide) (by decide) (by decide) (by decide)

/-- C10: the claim says every handler is total, reporting wrong arity and
malformed operands as RESP errors and never panicking.  `handle_set`
panics (unwrap) on the non-numeric PX operand of `SET k v PX abc` and
`handle_get` panics (index out of bounds) on GET with zero arguments;
both panics terminate the session task. -/
theorem C10_handlers_panic_on_malformed_args :
    handle_set 0 [] ["k", "v", "PX", "abc"] = none ∧
    handle_get 0 [] [] = none := by decide
